import Mathlib

/-!
Verification development for the mononoke blobimport tool and its
bookmark / linknode libraries.

Shallow embedding of:
- `src/bookmarks/stockbookmarks/src/lib.rs` (StockBookmarks reader),
- `src/linknodes/src/lib.rs` (NoopLinknodes and the Arc forwarding impl),
- `src/cmds/blobimport/main.rs` (the io-thread consumer with its dedup
  filter, the LimitedBlobstore decorator, and the store-opening logic).

Bytes are modelled as natural numbers; byte strings as lists of naturals.
-/

namespace Mononoke

/-- A byte, as a natural number (the embeddings only compare bytes and
bound them, so `Nat` is adequate). -/
abbrev Byte := Nat

/-- A byte string. -/
abbrev Bytes := List Byte

/-! ## Bookmarks: `src/bookmarks/stockbookmarks/src/lib.rs` -/

/-- Splitting of the file contents on the newline byte `0x0a`, exactly as
Rust's `BufRead::split(b'\n')` does in `from_reader`: each yielded chunk
excludes the delimiter, a final chunk without a trailing newline is still
yielded, and a trailing newline does not produce an extra empty chunk. -/
def bufSplit (data : Bytes) : List Bytes :=
  if data.isEmpty then []
  else if data.getLast? = some 10 then (data.splitOn 10).dropLast
  else data.splitOn 10

/-- The error kind of the stockbookmarks crate (`ErrorKind`). The offending
text is carried as raw bytes; the Rust code carries its lossy UTF-8 decoding,
which is a bijective function of these bytes for diagnostics purposes. -/
inductive BookmarksError
  | invalidBookmarkLine (line : Bytes)
  | invalidHash (hashField : Bytes)
deriving DecidableEq, Repr

/-- Value of a single hexadecimal digit byte, if it is one
(`0-9`, `a-f`, `A-F`). -/
def hexDigitValue (c : Byte) : Option Nat :=
  if 48 ≤ c ∧ c ≤ 57 then some (c - 48)
  else if 97 ≤ c ∧ c ≤ 102 then some (c - 87)
  else if 65 ≤ c ∧ c ≤ 70 then some (c - 55)
  else none

/-- Decoding of a hex string into bytes, two digits per byte. -/
def decodeHexPairs : Bytes → Option Bytes
  | [] => some []
  | [_] => none
  | c1 :: c2 :: rest =>
    match hexDigitValue c1, hexDigitValue c2, decodeHexPairs rest with
    | some h, some l, some bs => some ((16 * h + l) :: bs)
    | _, _, _ => none

/-- A decoded 20-byte content hash. -/
abbrev NodeHash := Bytes

/-- Modelled from the spec: `NodeHash::from_ascii_str` lives in the
`mercurial_types` crate, which is not under `src/`; per the spec the 40-byte
hash field "must decode as a valid content hash", i.e. 40
lowercase/uppercase hex characters decoding to a 20-byte hash. -/
def nodeHashFromAscii (s : Bytes) : Option NodeHash :=
  if s.length = 40 then decodeHexPairs s else none

/-- Whether every byte is ASCII, as `AsciiStr::from_ascii` requires. -/
def allAscii (s : Bytes) : Bool :=
  s.all (fun b => b < 128)

/-- Parsing of one bookmark line, following the body of the loop in
`StockBookmarks::from_reader`: a line shorter than 42 bytes or whose byte at
index 40 is not a space is an `InvalidBookmarkLine`; otherwise the first 40
bytes must be ASCII and decode as a hash, else `InvalidHash` carrying the
hash field; on success the pair (name bytes after index 40, hash) results. -/
def parseBookmarkLine (line : Bytes) : Except BookmarksError (Bytes × NodeHash) :=
  if line.length < 42 ∨ line.getD 40 0 ≠ 32 then
    .error (.invalidBookmarkLine line)
  else
    let bmname := line.drop 41
    let hashSlice := line.take 40
    if allAscii hashSlice then
      match nodeHashFromAscii hashSlice with
      | some h => .ok (bmname, h)
      | none => .error (.invalidHash hashSlice)
    else
      .error (.invalidHash hashSlice)

/-- The in-memory bookmark map. The Rust `HashMap<Vec<u8>, NodeHash>` is
modelled as an association list whose keys are distinct; `bmInsert` below is
the overwriting insert. -/
structure StockBookmarks where
  bookmarks : List (Bytes × NodeHash)
deriving DecidableEq, Repr

/-- Overwriting insert into the bookmark map (`HashMap::insert`): the new
binding replaces any previous binding of the same name. -/
def bmInsert (m : List (Bytes × NodeHash)) (k : Bytes) (v : NodeHash) :
    List (Bytes × NodeHash) :=
  (k, v) :: m.filter (fun p => p.1 ≠ k)

/-- The parsing loop of `from_reader`: processes lines in order, folding
successful entries into the map, aborting with the first error. -/
def from_reader_go : List Bytes → List (Bytes × NodeHash) →
    Except BookmarksError StockBookmarks
  | [], m => .ok ⟨m⟩
  | l :: ls, m =>
    match parseBookmarkLine l with
    | .error e => .error e
    | .ok (name, h) => from_reader_go ls (bmInsert m name h)

/-- `StockBookmarks::from_reader` over the full byte contents of the file. -/
def from_reader (data : Bytes) : Except BookmarksError StockBookmarks :=
  from_reader_go (bufSplit data) []

/-- `Bookmarks::get` for `StockBookmarks`: look the name up and pair the
hash with the fixed version constant `Version::from(1)` (the external
`Version` newtype is modelled by its underlying integer). -/
def StockBookmarks.get (bm : StockBookmarks) (name : Bytes) :
    Option (NodeHash × Nat) :=
  match bm.bookmarks.lookup name with
  | some h => some (h, 1)
  | none => none

/-- `Bookmarks::keys` for `StockBookmarks`: all stored names. -/
def StockBookmarks.keys (bm : StockBookmarks) : List Bytes :=
  bm.bookmarks.map Prod.fst

/-- Result of `fs::File::open` on the bookmarks file, abstracting the file
system: the file exists with some contents, is missing, or fails to open
with some other OS error (identified by its error code). -/
inductive FileOpen
  | content (data : Bytes)
  | notFound
  | otherError (code : Nat)

/-- Errors surfaced by `StockBookmarks::read`: an OS error from opening the
file, or a parse error from `from_reader`. -/
inductive ReadError
  | ioError (code : Nat)
  | bookmarks (e : BookmarksError)

/-- `StockBookmarks::read`, as a function of the outcome of opening
`base.join("bookmarks")`: parse on success, treat a missing file as an empty
mapping, propagate any other open error. -/
def StockBookmarks.read (f : FileOpen) : Except ReadError StockBookmarks :=
  match f with
  | .content data => (from_reader data).mapError ReadError.bookmarks
  | .notFound => .ok ⟨[]⟩
  | .otherError c => .error (.ioError c)

/-- The entries of a list of lines that parse successfully, in order. -/
def entriesOfLines (ls : List Bytes) : List (Bytes × NodeHash) :=
  ls.filterMap (fun l => (parseBookmarkLine l).toOption)

/-- The entries that parse successfully, in file order (used to state what
the final map contains). -/
def parsedEntries (data : Bytes) : List (Bytes × NodeHash) :=
  entriesOfLines (bufSplit data)

/-! ## Linknodes: `src/linknodes/src/lib.rs` -/

/-- A repository path (`RepoPath` is defined in the external
`mercurial_types` crate; its identity is all that matters here). -/
abbrev RepoPath := Bytes

/-- `ErrorKind` of the linknodes crate. -/
inductive LinknodesError
  | notFound (path : RepoPath) (node : NodeHash)
  | alreadyExists (path : RepoPath) (node : NodeHash)
      (old_linknode : Option NodeHash) (new_linknode : NodeHash)
  | storageError
deriving DecidableEq, Repr

/-- `NoopLinknodes`: a linknodes implementation with no state at all (the
Rust struct has no fields, and its methods take `&self` and touch nothing). -/
structure NoopLinknodes
deriving DecidableEq, Repr

/-- `NoopLinknodes::new`. -/
def NoopLinknodes.new : NoopLinknodes := ⟨⟩

/-- `NoopLinknodes::get`: always the `NotFound` error carrying the queried
path and node (the returned future resolves to that error). -/
def NoopLinknodes.get (_s : NoopLinknodes) (path : RepoPath) (node : NodeHash) :
    Except LinknodesError NodeHash :=
  .error (.notFound path node)

/-- `NoopLinknodes::add`: always succeeds, storing nothing (the struct has
no state for it to change). -/
def NoopLinknodes.add (_s : NoopLinknodes) (_path : RepoPath) (_node : NodeHash)
    (_linknode : NodeHash) : Except LinknodesError Unit :=
  .ok ()

/-- A `Linknodes` implementation, as a record of its two methods: `Get` and
`Effect` are the implementation-chosen result types of `get` and `add`. -/
structure LinknodesImpl (G E : Type) where
  get : RepoPath → NodeHash → G
  add : RepoPath → NodeHash → NodeHash → E

/-- The `impl<L> Linknodes for Arc<L>` instance: each method dereferences
the shared handle and calls the inner implementation's method. -/
def arcLinknodes {G E : Type} (L : LinknodesImpl G E) : LinknodesImpl G E where
  get := fun path node => L.get path node
  add := fun path node linknode => L.add path node linknode

/-! ## LimitedBlobstore: `src/cmds/blobimport/main.rs` lines 296-316 -/

/-- The size-limiting blobstore decorator. The wrapped inner blobstore is
external to this file (one of the backend engines); it is modelled by its
uniform get/put contract as a key-to-payload map (`put` is
create-or-overwrite, `get` reads back or reports absence). -/
structure LimitedBlobstore where
  blobstore : String → Option Bytes
  max_blob_size : Nat

/-- The inner store's `put`: create-or-overwrite for a key. -/
def innerPut (m : String → Option Bytes) (key : String) (val : Bytes) :
    String → Option Bytes :=
  fun k => if k = key then some val else m k

/-- `LimitedBlobstore::get`: delegates unchanged to the inner store. -/
def LimitedBlobstore.get (bs : LimitedBlobstore) (key : String) : Option Bytes :=
  bs.blobstore key

/-- `LimitedBlobstore::put`: if the payload length reaches `max_blob_size`
the write is dropped and success is reported (the state is unchanged);
otherwise the write is delegated to the inner store. The returned value is
the post-state; both branches report success. -/
def LimitedBlobstore.put (bs : LimitedBlobstore) (key : String) (val : Bytes) :
    LimitedBlobstore :=
  if val.length ≥ bs.max_blob_size then bs
  else { bs with blobstore := innerPut bs.blobstore key val }

/-! ## The io-thread consumer: `src/cmds/blobimport/main.rs` lines 133-177 -/

/-- `BlobstoreEntry`: the work items sent over the import channel.
`BlobChangeset` is external; a changeset record is identified abstractly by
a natural number. -/
inductive BlobstoreEntry
  | manifestEntry (key : String) (value : Bytes)
  | changeset (bcs : Nat)
deriving DecidableEq, Repr

/-- The observable state of the io thread: the `inserted_manifest_entries`
seen-set (a list with distinct members, most recent first), the manifest
puts issued to the blobstore in order, the changesets saved in order, and
the duplicate counter (`STATS::duplicates`). -/
structure IoThreadState where
  inserted_manifest_entries : List String
  puts : List (String × Bytes)
  saved : List Nat
  duplicates : Nat
deriving DecidableEq, Repr

/-- Processing of one dequeued item by the consumer's `map` closure: a
`Changeset` is always saved; a `ManifestEntry` whose key enters the seen-set
for the first time is put to the blobstore, otherwise the duplicate counter
is incremented and nothing is written. -/
def processEntry (st : IoThreadState) (e : BlobstoreEntry) : IoThreadState :=
  match e with
  | .changeset bcs => { st with saved := st.saved ++ [bcs] }
  | .manifestEntry key value =>
    if key ∈ st.inserted_manifest_entries then
      { st with duplicates := st.duplicates + 1 }
    else
      { st with
          inserted_manifest_entries := key :: st.inserted_manifest_entries,
          puts := st.puts ++ [(key, value)] }

/-- The initial io-thread state: empty seen-set, nothing written, zero
duplicates. -/
def initialIoState : IoThreadState := ⟨[], [], [], 0⟩

/-- The consumer's run over a drained sequence of work items. -/
def processEntries (es : List BlobstoreEntry) : IoThreadState :=
  es.foldl processEntry initialIoState

/-- The keys of the manifest/file-blob items of a work sequence, in order. -/
def manifestKeys (es : List BlobstoreEntry) : List String :=
  es.filterMap (fun e =>
    match e with
    | .manifestEntry key _ => some key
    | .changeset _ => none)

/-- The changeset items of a work sequence, in order. -/
def changesetsOf (es : List BlobstoreEntry) : List Nat :=
  es.filterMap (fun e =>
    match e with
    | .manifestEntry _ _ => none
    | .changeset bcs => some bcs)

/-! ## Store opening: `src/cmds/blobimport/main.rs` lines 194-293 -/

/-- `BlobstoreType`. -/
inductive BlobstoreType
  | files
  | rocksdb
  | manifold (bucket : String)
deriving DecidableEq, Repr

/-- Result of a store-opening step: a value, or a process abort through
`Option::expect` with the given panic message. The external backend
constructors (FileHeads, Fileblob, Rocksblob, FileLinknodes creation) are
out of scope and modelled as succeeding; the aborts modelled here are the
`expect` calls in the code under `src/`. -/
inductive Outcome (α : Type)
  | ok (a : α)
  | panics (msg : String)
deriving DecidableEq, Repr

/-- Whether an `Outcome` is a successful value. -/
def Outcome.isOk {α : Type} : Outcome α → Bool
  | .ok _ => true
  | .panics _ => false

/-- The heads store selected by `open_headstore`. -/
inductive Headstore
  | fileHeads (path : String)
  | memHeads
deriving DecidableEq, Repr

/-- `open_headstore`: with an output path, a file-backed heads store under
`<output>/heads`; with no output path, an in-memory heads store. -/
def open_headstore (path : Option String) : Outcome Headstore :=
  match path with
  | some p => .ok (.fileHeads (p ++ "/heads"))
  | none => .ok .memHeads

/-- The backend chosen by `open_blobstore` before decoration. -/
inductive OpenedBlobstore
  | fileblob (root : String)
  | rocksblob (root : String) (postponeCompaction : Bool)
  | manifoldblob (bucket : String)
deriving DecidableEq, Repr

/-- The blobstore configuration produced by `open_blobstore`: the opened
backend, wrapped in the size-limiting decorator when `max_blob_size` was
given. -/
structure BlobstoreConfig where
  base : OpenedBlobstore
  maxBlobSize : Option Nat
deriving DecidableEq, Repr

/-- `open_blobstore`: the files and rocksdb backends unwrap the output path
with `expect("output path is not specified")` — a panic when it is absent —
and open under `<output>/blobs`; the manifold backend needs no output path.
The `max_blob_size` option is recorded as the decorator. -/
def open_blobstore (output : Option String) (ty : BlobstoreType)
    (postpone_compaction : Bool) (max_blob_size : Option Nat) :
    Outcome BlobstoreConfig :=
  match ty with
  | .files =>
    match output with
    | none => .panics "output path is not specified"
    | some out => .ok ⟨.fileblob (out ++ "/blobs"), max_blob_size⟩
  | .rocksdb =>
    match output with
    | none => .panics "output path is not specified"
    | some out => .ok ⟨.rocksblob (out ++ "/blobs") postpone_compaction, max_blob_size⟩
  | .manifold bucket => .ok ⟨.manifoldblob bucket, max_blob_size⟩

/-- The linknodes store chosen by `run_blobimport`. -/
inductive LinknodesChoice
  | fileStore (path : String)
  | noop
deriving DecidableEq, Repr

/-- The linknodes branch of `run_blobimport` (lines 194-203): when
`--linknodes` was given, the output path is unwrapped with
`expect("output path is not provided")` — a panic when it is absent — and a
file-backed store is opened under `<output>/linknodes`; otherwise the no-op
store is used. -/
def open_linknodes (output : Option String) (write_linknodes : Bool) :
    Outcome LinknodesChoice :=
  if write_linknodes then
    match output with
    | none => .panics "output path is not provided"
    | some out => .ok (.fileStore (out ++ "/linknodes"))
  else .ok .noop

/-! ## Concrete inputs used by witnesses -/

/-- The three-line bookmark file from the spec's example: `1111…1 abc`,
`2222…2 def`, `1111…1 test123`, newline-separated (bytes: `1` is 49, `2` is
50, space is 32, newline is 10). -/
def exFile : Bytes :=
  List.replicate 40 49 ++ [32, 97, 98, 99, 10] ++
    List.replicate 40 50 ++ [32, 100, 101, 102, 10] ++
    List.replicate 40 49 ++ [32, 116, 101, 115, 116, 49, 50, 51, 10]

/-- The bookmark map produced from `exFile`: `test123` and `abc` map to the
hash of twenty `0x11` bytes, `def` to twenty `0x22` bytes (most recent
insert first). -/
def exBm : StockBookmarks :=
  ⟨[([116, 101, 115, 116, 49, 50, 51], List.replicate 20 17),
    ([100, 101, 102], List.replicate 20 34),
    ([97, 98, 99], List.replicate 20 17)]⟩

/-- A bookmark file whose first line is valid and whose second line (`111`)
is malformed. -/
def badFile : Bytes :=
  List.replicate 40 49 ++ [32, 97, 10, 49, 49, 49]

/-- An empty inner blobstore wrapped with `max_blob_size = 3`. -/
def limitEx : LimitedBlobstore :=
  ⟨fun _ => none, 3⟩

/-! ## Helper lemmas -/

/-- Lookup in a cons cell of an association list, with propositional
equality in place of `BEq`. -/
theorem lookup_cons_eq (l : List (Bytes × NodeHash)) (a : Bytes) (k : Bytes)
    (b : NodeHash) :
    List.lookup a ((k, b) :: l) = if a = k then some b else List.lookup a l := by
  rw [List.lookup_cons]
  by_cases hak : a = k
  · simp [hak]
  · simp [hak, beq_false_of_ne hak]

/-- Lookup distributes over append, preferring the first list. -/
theorem lookup_append_or (l1 l2 : List (Bytes × NodeHash)) (n : Bytes) :
    (l1 ++ l2).lookup n = (l1.lookup n).or (l2.lookup n) := by
  induction l1 with
  | nil => simp
  | cons p ps ih =>
    obtain ⟨a, b⟩ := p
    by_cases hna : n = a
    · simp [lookup_cons_eq, hna]
    · simp [lookup_cons_eq, hna, ih]

/-- Lookup succeeds exactly on the keys of an association list. -/
theorem lookup_isSome_iff (l : List (Bytes × NodeHash)) (n : Bytes) :
    (l.lookup n).isSome ↔ n ∈ l.map Prod.fst := by
  induction l with
  | nil => simp
  | cons p ps ih =>
    obtain ⟨k, v⟩ := p
    by_cases hnk : n = k
    · simp [lookup_cons_eq, hnk]
    · simp [lookup_cons_eq, hnk, ih]

/-- Lookup after dropping every binding of key `k`. -/
theorem lookup_filter_ne (m : List (Bytes × NodeHash)) (k n : Bytes) :
    (m.filter (fun p => p.1 ≠ k)).lookup n =
      if n = k then none else m.lookup n := by
  induction m with
  | nil => simp
  | cons p ps ih =>
    obtain ⟨a, b⟩ := p
    rw [List.filter_cons]
    by_cases hak : a = k
    · rw [if_neg (by simp [hak]), ih, lookup_cons_eq]
      by_cases hnk : n = k
      · simp [hnk]
      · have hna : ¬n = a := fun hh => hnk (hh.trans hak)
        simp [hnk, hna]
    · rw [if_pos (by simp [hak]), lookup_cons_eq, ih, lookup_cons_eq]
      by_cases hna : n = a
      · have hnk : ¬n = k := by rw [hna]; exact hak
        simp [hna, hnk, hak]
      · simp [hna]

/-- Lookup after an overwriting insert. -/
theorem lookup_bmInsert (m : List (Bytes × NodeHash)) (k v n : Bytes) :
    (bmInsert m k v).lookup n = if n = k then some v else m.lookup n := by
  unfold bmInsert
  rw [lookup_cons_eq, lookup_filter_ne]
  by_cases hnk : n = k <;> simp [hnk]

/-- An overwriting insert preserves distinctness of the stored names. -/
theorem keys_bmInsert_nodup (m : List (Bytes × NodeHash)) (k : Bytes)
    (v : NodeHash) (h : (m.map Prod.fst).Nodup) :
    ((bmInsert m k v).map Prod.fst).Nodup := by
  refine List.Nodup.cons ?_ ?_
  · intro hmem
    obtain ⟨p, hp, hfst⟩ := List.mem_map.mp hmem
    simp only [List.mem_filter, decide_eq_true_eq] at hp
    exact hp.2 hfst
  · exact List.Nodup.sublist (List.Sublist.map Prod.fst (List.filter_sublist _)) h

/-- The parsing loop: on success, the final map's bindings are the last
bindings of the successfully parsed entries, falling back to the incoming
map for unseen names. -/
theorem from_reader_go_ok_lookup (ls : List Bytes) :
    ∀ (m : List (Bytes × NodeHash)) (bm : StockBookmarks),
      from_reader_go ls m = .ok bm → ∀ n,
        bm.bookmarks.lookup n = ((entriesOfLines ls).reverse.lookup n).or (m.lookup n) := by
  induction ls with
  | nil =>
    intro m bm h n
    simp only [from_reader_go, Except.ok.injEq] at h
    subst h
    simp [entriesOfLines]
  | cons l ls ih =>
    intro m bm h n
    unfold from_reader_go at h
    cases hp : parseBookmarkLine l with
    | error e => rw [hp] at h; exact absurd h (by simp)
    | ok pr =>
      obtain ⟨name, hsh⟩ := pr
      rw [hp] at h
      have hih := ih (bmInsert m name hsh) bm h n
      have hentries : entriesOfLines (l :: ls) = (name, hsh) :: entriesOfLines ls := by
        simp [entriesOfLines, List.filterMap_cons, hp, Except.toOption]
      rw [hentries, List.reverse_cons, lookup_append_or, hih, lookup_bmInsert]
      by_cases hnn : n = name <;>
        cases htail : (entriesOfLines ls).reverse.lookup n <;>
          simp [lookup_cons_eq, hnn, Option.or]

/-- The parsing loop: on success, the stored names are distinct when the
incoming map's names are. -/
theorem from_reader_go_ok_nodup (ls : List Bytes) :
    ∀ (m : List (Bytes × NodeHash)) (bm : StockBookmarks),
      from_reader_go ls m = .ok bm → (m.map Prod.fst).Nodup →
        (bm.bookmarks.map Prod.fst).Nodup := by
  induction ls with
  | nil =>
    intro m bm h hm
    simp only [from_reader_go, Except.ok.injEq] at h
    subst h
    exact hm
  | cons l ls ih =>
    intro m bm h hm
    unfold from_reader_go at h
    cases hp : parseBookmarkLine l with
    | error e => rw [hp] at h; exact absurd h (by simp)
    | ok pr =>
      obtain ⟨name, hsh⟩ := pr
      rw [hp] at h
      exact ih (bmInsert m name hsh) bm h (keys_bmInsert_nodup m name hsh hm)

/-- The parsing loop: if any line fails to parse, the loop fails. -/
theorem from_reader_go_error (ls : List Bytes) :
    ∀ (m : List (Bytes × NodeHash)),
      (∃ l ∈ ls, (parseBookmarkLine l).isOk = false) →
        (from_reader_go ls m).isOk = false := by
  induction ls with
  | nil => intro m h; simp at h
  | cons l ls ih =>
    intro m h
    unfold from_reader_go
    cases hp : parseBookmarkLine l with
    | error e => rfl
    | ok pr =>
      obtain ⟨name, hsh⟩ := pr
      obtain ⟨l', hl', hbad⟩ := h
      rcases List.mem_cons.mp hl' with rfl | hl'
      · rw [hp] at hbad; exact absurd hbad (by simp [Except.isOk, Except.toBool])
      · exact ih (bmInsert m name hsh) ⟨l', hl', hbad⟩

/-- The consumer fold never drops or reorders changeset saves. -/
theorem foldl_saved (es : List BlobstoreEntry) :
    ∀ st : IoThreadState,
      (es.foldl processEntry st).saved = st.saved ++ changesetsOf es := by
  induction es with
  | nil => intro st; simp [changesetsOf]
  | cons e es ih =>
    intro st
    cases e with
    | changeset bcs =>
      rw [List.foldl_cons, ih]
      simp [processEntry, changesetsOf, List.filterMap_cons]
    | manifestEntry k v =>
      rw [List.foldl_cons, ih]
      by_cases hk : k ∈ st.inserted_manifest_entries <;>
        simp [processEntry, hk, changesetsOf, List.filterMap_cons]

/-- The consumer fold's seen-set collects exactly the manifest keys. -/
theorem foldl_inserted_mem (es : List BlobstoreEntry) :
    ∀ (st : IoThreadState) (k : String),
      k ∈ (es.foldl processEntry st).inserted_manifest_entries ↔
        k ∈ st.inserted_manifest_entries ∨ k ∈ manifestKeys es := by
  induction es with
  | nil => intro st k; simp [manifestKeys]
  | cons e es ih =>
    intro st k
    cases e with
    | changeset bcs =>
      rw [List.foldl_cons, ih]
      simp [processEntry, manifestKeys, List.filterMap_cons]
    | manifestEntry k' v =>
      rw [List.foldl_cons]
      by_cases hk' : k' ∈ st.inserted_manifest_entries
      · rw [ih]
        simp only [processEntry, if_pos hk', manifestKeys, List.filterMap_cons,
          List.mem_cons]
        constructor
        · tauto
        · intro h
          rcases h with h | h
          · exact Or.inl h
          · rcases h with rfl | h
            · exact Or.inl hk'
            · exact Or.inr h
      · rw [ih]
        simp only [processEntry, if_neg hk', manifestKeys, List.filterMap_cons,
          List.mem_cons]
        tauto

/-- Every manifest item makes the consumer either put or count a duplicate:
the duplicate counter and the put list together account for each item
exactly once. -/
theorem foldl_counts (es : List BlobstoreEntry) :
    ∀ st : IoThreadState,
      (es.foldl processEntry st).duplicates + (es.foldl processEntry st).puts.length =
        st.duplicates + st.puts.length + (manifestKeys es).length := by
  induction es with
  | nil => intro st; simp [manifestKeys]
  | cons e es ih =>
    intro st
    cases e with
    | changeset bcs =>
      rw [List.foldl_cons, ih]
      simp [processEntry, manifestKeys, List.filterMap_cons]
    | manifestEntry k v =>
      rw [List.foldl_cons, ih]
      by_cases hk : k ∈ st.inserted_manifest_entries <;>
        simp [processEntry, hk, manifestKeys, List.filterMap_cons] <;> omega

/-- The number of puts the consumer issues for a given key: one when the
key occurs among the remaining manifest items and is not yet in the
seen-set, zero otherwise (beyond puts already issued). -/
theorem foldl_put_count (es : List BlobstoreEntry) :
    ∀ (st : IoThreadState) (k : String),
      ((es.foldl processEntry st).puts.map Prod.fst).count k =
        (st.puts.map Prod.fst).count k +
          (if k ∈ manifestKeys es ∧ k ∉ st.inserted_manifest_entries then 1 else 0) := by
  induction es with
  | nil => intro st k; simp [manifestKeys]
  | cons e es ih =>
    intro st k
    cases e with
    | changeset bcs =>
      rw [List.foldl_cons, ih]
      simp [processEntry, manifestKeys, List.filterMap_cons]
    | manifestEntry k' v =>
      rw [List.foldl_cons, ih]
      by_cases hk' : k' ∈ st.inserted_manifest_entries
      · simp only [processEntry, if_pos hk']
        by_cases hkk : k = k'
        · subst hkk
          simp [manifestKeys, List.filterMap_cons, hk']
        · simp only [manifestKeys, List.filterMap_cons, List.mem_cons]
          by_cases hmem : k ∈ manifestKeys es <;>
            simp [manifestKeys, hmem, hkk]
      · simp only [processEntry, if_neg hk']
        simp only [List.map_append, List.count_append, List.mem_cons]
        by_cases hkk : k = k'
        · subst hkk
          simp [manifestKeys, List.filterMap_cons, hk', List.count_cons]
        · have hins : k ∉ st.inserted_manifest_entries ↔
              ¬(k = k' ∨ k ∈ st.inserted_manifest_entries) := by
            simp [hkk]
          simp only [manifestKeys, List.filterMap_cons, List.mem_cons]
          by_cases hmem : k ∈ manifestKeys es <;>
            by_cases hst : k ∈ st.inserted_manifest_entries <;>
              simp [manifestKeys, hmem, hkk, hst, List.count_cons]

/-! ## Claim theorems -/

/-- Claim C1 — consumer dedup: over any drained sequence of work items, the
consumer issues exactly one blobstore put per distinct manifest/file-blob
key (and none for keys absent from the sequence), the duplicate counter
together with the issued puts accounts for every manifest item exactly once
(so each already-seen key adds exactly one duplicate and no put), the
seen-set ends up holding exactly the manifest keys, and every changeset
item is saved, in order, never deduplicated. -/
theorem claim_C1 (es : List BlobstoreEntry) :
    (∀ k, ((processEntries es).puts.map Prod.fst).count k =
        if k ∈ manifestKeys es then 1 else 0)
    ∧ (processEntries es).duplicates + (processEntries es).puts.length =
        (manifestKeys es).length
    ∧ (∀ k, k ∈ (processEntries es).inserted_manifest_entries ↔ k ∈ manifestKeys es)
    ∧ (processEntries es).saved = changesetsOf es := by
  refine ⟨?_, ?_, ?_, ?_⟩
  · intro k
    have h := foldl_put_count es initialIoState k
    simp only [processEntries, initialIoState] at h ⊢
    rw [h]
    by_cases hmem : k ∈ manifestKeys es <;> simp [hmem]
  · have h := foldl_counts es initialIoState
    simp only [processEntries, initialIoState] at h ⊢
    rw [h]
    simp
  · intro k
    have h := foldl_inserted_mem es initialIoState k
    simp only [processEntries, initialIoState] at h ⊢
    rw [h]
    simp
  · have h := foldl_saved es initialIoState
    simp only [processEntries, initialIoState] at h ⊢
    rw [h]
    simp

/-- Claim C2 — size-limiting decorator: a put whose payload length reaches
`max_blob_size` returns the store unchanged (so a later get finds nothing
for that key unless it was written otherwise); a put below the limit is
delegated unchanged to the inner store, round-trips, and keeps the
configured limit; get always delegates unchanged to the inner store. -/
theorem claim_C2 (bs : LimitedBlobstore) (key : String) (val : Bytes) :
    (bs.max_blob_size ≤ val.length →
      bs.put key val = bs
      ∧ (bs.blobstore key = none → (bs.put key val).get key = none))
    ∧ (val.length < bs.max_blob_size →
      (bs.put key val).blobstore = innerPut bs.blobstore key val
      ∧ (bs.put key val).get key = some val
      ∧ (bs.put key val).max_blob_size = bs.max_blob_size)
    ∧ (∀ b : LimitedBlobstore, ∀ k, b.get k = b.blobstore k) := by
  refine ⟨fun hge => ?_, fun hlt => ?_, fun b k => rfl⟩
  · have hput : bs.put key val = bs := by
      unfold LimitedBlobstore.put
      rw [if_pos hge]
    refine ⟨hput, fun habsent => ?_⟩
    rw [hput]
    exact habsent
  · have hput : bs.put key val =
        { bs with blobstore := innerPut bs.blobstore key val } := by
      unfold LimitedBlobstore.put
      rw [if_neg (by omega)]
    rw [hput]
    exact ⟨rfl, by simp [LimitedBlobstore.get, innerPut], rfl⟩

/-- Claim C2 witness: with an empty inner store limited at 3 bytes, a
3-byte put leaves the store unchanged while a 2-byte put round-trips. -/
theorem claim_C2_witness :
    limitEx.put "k" [0, 0, 0] = limitEx
    ∧ (limitEx.put "k" [0, 0]).get "k" = some [0, 0] :=
  ⟨((claim_C2 limitEx "k" [0, 0, 0]).1 (by decide)).1,
   ((claim_C2 limitEx "k" [0, 0]).2.1 (by decide)).2.1⟩

/-- Claim C3 counterexample: with the output storage root absent, opening
the blobstore aborts (panics in `expect`) for the files backend, and
opening the linknodes store aborts when linknodes are requested — so it is
not the case that opening proceeds without failure for every choice of
backend selector and flags. -/
theorem claim_C3_counterexample :
    (open_blobstore none .files false none).isOk = false
    ∧ (open_linknodes none true).isOk = false :=
  ⟨rfl, rfl⟩

/-- Claim C3, amended: when the output storage root is absent the heads
store becomes the in-memory store and, when linknodes are not requested,
the no-op linknodes store is used; but opening the blobstore proceeds only
for the manifold backend — for the files and rocksdb backends it aborts
with the `expect` panic — and requesting linknodes with an absent output
also aborts. -/
theorem claim_C3 :
    open_headstore none = .ok .memHeads
    ∧ (∀ (bucket : String) (pc : Bool) (mbs : Option Nat),
        open_blobstore none (.manifold bucket) pc mbs =
          .ok ⟨.manifoldblob bucket, mbs⟩)
    ∧ (∀ (pc : Bool) (mbs : Option Nat),
        open_blobstore none .files pc mbs =
          .panics "output path is not specified")
    ∧ (∀ (pc : Bool) (mbs : Option Nat),
        open_blobstore none .rocksdb pc mbs =
          .panics "output path is not specified")
    ∧ open_linknodes none false = .ok .noop
    ∧ open_linknodes none true = .panics "output path is not provided" :=
  ⟨rfl, fun _ _ _ => rfl, fun _ _ => rfl, fun _ _ => rfl, rfl, rfl⟩

/-- Claim C4 — bookmark lookup and enumeration: on a successfully parsed
bookmark file, get returns for each name the most recently inserted hash
(the last binding in file order) paired with the version constant 1, names
not present in the file get none, and the enumerated names are exactly the
distinct names of the file, each once. -/
theorem claim_C4 (data : Bytes) (bm : StockBookmarks)
    (h : from_reader data = .ok bm) :
    (∀ name, bm.get name =
      ((parsedEntries data).reverse.lookup name).map (fun hsh => (hsh, 1)))
    ∧ (∀ name, name ∉ (parsedEntries data).map Prod.fst → bm.get name = none)
    ∧ bm.keys.Nodup
    ∧ (∀ name, name ∈ bm.keys ↔ name ∈ (parsedEntries data).map Prod.fst) := by
  have hl : ∀ n, bm.bookmarks.lookup n = (parsedEntries data).reverse.lookup n := by
    intro n
    have := from_reader_go_ok_lookup (bufSplit data) [] bm h n
    simpa [parsedEntries] using this
  have hget : ∀ name, bm.get name =
      ((parsedEntries data).reverse.lookup name).map (fun hsh => (hsh, 1)) := by
    intro name
    unfold StockBookmarks.get
    rw [hl name]
    cases (parsedEntries data).reverse.lookup name <;> simp
  have hmemrev : ∀ (n : Bytes),
      n ∈ ((parsedEntries data).reverse.map Prod.fst) ↔
        n ∈ (parsedEntries data).map Prod.fst := by
    intro n
    rw [List.map_reverse]
    exact List.mem_reverse
  refine ⟨hget, fun name hname => ?_, ?_, fun name => ?_⟩
  · rw [hget name]
    cases hcase : (parsedEntries data).reverse.lookup name with
    | none => rfl
    | some v =>
      refine absurd ((hmemrev name).mp ((lookup_isSome_iff _ name).mp ?_)) hname
      rw [hcase]
      rfl
  · exact from_reader_go_ok_nodup (bufSplit data) [] bm h (by simp)
  · unfold StockBookmarks.keys
    rw [← lookup_isSome_iff, hl name, lookup_isSome_iff]
    exact hmemrev name

/-- Claim C4 witness: the spec's example file parses to `exBm`, whose
lookup of `abc` matches the last-binding reading and whose keys are
distinct. -/
theorem claim_C4_witness :
    StockBookmarks.get exBm [97, 98, 99] =
      ((parsedEntries exFile).reverse.lookup [97, 98, 99]).map (fun hsh => (hsh, 1))
    ∧ exBm.keys.Nodup :=
  ⟨(claim_C4 exFile exBm (by rfl)).1 [97, 98, 99],
   (claim_C4 exFile exBm (by rfl)).2.2.1⟩

/-- Claim C5 — malformed-line classification: any line shorter than 42
bytes, or whose byte at index 40 is not the space byte 0x20, is rejected
with the malformed-line error carrying the line itself, never with the
invalid-hash error. -/
theorem claim_C5 (line : Bytes)
    (h : line.length < 42 ∨ line.getD 40 0 ≠ 32) :
    parseBookmarkLine line = .error (.invalidBookmarkLine line) := by
  unfold parseBookmarkLine
  rw [if_pos h]

/-- Claim C5 witness: the three cases listed by the spec — a 3-byte line, a
bare 40-hex-character line, and a 40-hex-character line followed by a space
and a zero-length name — all yield the malformed-line error. -/
theorem claim_C5_witness :
    parseBookmarkLine [49, 49, 49] =
      .error (.invalidBookmarkLine [49, 49, 49])
    ∧ parseBookmarkLine (List.replicate 40 49) =
      .error (.invalidBookmarkLine (List.replicate 40 49))
    ∧ parseBookmarkLine (List.replicate 40 49 ++ [32]) =
      .error (.invalidBookmarkLine (List.replicate 40 49 ++ [32])) :=
  ⟨claim_C5 [49, 49, 49] (by decide),
   claim_C5 (List.replicate 40 49) (by decide),
   claim_C5 (List.replicate 40 49 ++ [32]) (by decide)⟩

/-- Claim C6 — invalid-hash classification: any line passing the
length-and-separator check whose first 40 bytes are not all ASCII or do not
decode as a content hash is rejected with the invalid-hash error carrying
the 40-byte hash field. -/
theorem claim_C6 (line : Bytes) (h1 : 42 ≤ line.length)
    (h2 : line.getD 40 0 = 32)
    (h3 : allAscii (line.take 40) = false ∨ nodeHashFromAscii (line.take 40) = none) :
    parseBookmarkLine line = .error (.invalidHash (line.take 40)) := by
  have hcond : ¬(line.length < 42 ∨ line.getD 40 0 ≠ 32) := by
    push_neg
    exact ⟨by omega, h2⟩
  rcases h3 with h3 | h3
  · simp only [parseBookmarkLine, if_neg hcond, h3]
    simp
  · simp only [parseBookmarkLine, if_neg hcond, h3]
    by_cases ha : allAscii (line.take 40) <;> simp [ha]

/-- Claim C6 witness: the three cases listed by the spec — a 39-character
hash field followed by two spaces and a name, a hash field with one
non-ASCII byte, and a hash field of non-hexadecimal ASCII characters — all
yield the invalid-hash error carrying the 40-byte hash field. -/
theorem claim_C6_witness :
    parseBookmarkLine (List.replicate 39 49 ++ [32, 32, 49, 97, 98]) =
      .error (.invalidHash ((List.replicate 39 49 ++ [32, 32, 49, 97, 98]).take 40))
    ∧ parseBookmarkLine (List.replicate 39 49 ++ [255, 32, 116, 101, 115, 116]) =
      .error (.invalidHash ((List.replicate 39 49 ++ [255, 32, 116, 101, 115, 116]).take 40))
    ∧ parseBookmarkLine (List.replicate 40 103 ++ [32, 116]) =
      .error (.invalidHash ((List.replicate 40 103 ++ [32, 116]).take 40)) :=
  ⟨claim_C6 (List.replicate 39 49 ++ [32, 32, 49, 97, 98]) (by decide) (by decide)
      (Or.inr (by decide)),
   claim_C6 (List.replicate 39 49 ++ [255, 32, 116, 101, 115, 116]) (by decide)
      (by decide) (Or.inl (by decide)),
   claim_C6 (List.replicate 40 103 ++ [32, 116]) (by decide) (by decide)
      (Or.inr (by decide))⟩

/-- Claim C7 — missing bookmark file recovery: reading over a missing
bookmarks file succeeds with the empty mapping (every lookup absent, no
names), while any other open failure is propagated as an error. -/
theorem claim_C7 :
    StockBookmarks.read .notFound = .ok ⟨[]⟩
    ∧ (∀ name, StockBookmarks.get ⟨[]⟩ name = none)
    ∧ StockBookmarks.keys ⟨[]⟩ = []
    ∧ (∀ code, StockBookmarks.read (.otherError code) = .error (.ioError code)) :=
  ⟨rfl, fun _ => rfl, rfl, fun _ => rfl⟩

/-- Claim C8 — no-op linknode store: every add succeeds while persisting
nothing (the store has no state), and every get — in particular one
following any add — returns the NotFound error carrying the queried path
and node. -/
theorem claim_C8 (s : NoopLinknodes) (path node linknode : Bytes) :
    s.add path node linknode = .ok ()
    ∧ s.get path node = .error (.notFound path node) :=
  ⟨rfl, rfl⟩

/-- Claim C9 — shared-ownership forwarding: for any linknodes
implementation, the Arc wrapper's get and add return exactly what the inner
implementation returns on the same arguments. -/
theorem claim_C9 {G E : Type} (L : LinknodesImpl G E)
    (path node linknode : Bytes) :
    (arcLinknodes L).get path node = L.get path node
    ∧ (arcLinknodes L).add path node linknode = L.add path node linknode :=
  ⟨rfl, rfl⟩

/-- Claim C10 — all-or-nothing parsing: if any line of the bookmark file
fails to parse, from_reader returns an error and no bookmark value at all;
entries from earlier valid lines are not surfaced. -/
theorem claim_C10 (data : Bytes)
    (h : ∃ l ∈ bufSplit data, (parseBookmarkLine l).isOk = false) :
    (from_reader data).isOk = false :=
  from_reader_go_error (bufSplit data) [] h

/-- Claim C10 witness: a file whose first line is valid and whose second
line is malformed parses to an error. -/
theorem claim_C10_witness : (from_reader badFile).isOk = false :=
  claim_C10 badFile (by decide)

end Mononoke
